import Mathlib

/-!
Verification of the resilient Telegram-export extraction pipeline
(`tg_self_analyze.py`): the brace-depth object scanner, the tolerant
fragment decoder, conversation discovery/selection, the message id index
and the output-row correlator.

Strings are modelled as `List Char` (Python `str` is a sequence of code
points).  Machine-level details that cannot matter to any statement proved
here (full Unicode NFKC tables, the exact `repr` of Python containers) are
modelled by clearly documented restrictions; every control-flow decision of
the source is translated verbatim.
-/

set_option maxRecDepth 20000

/-- JSON values as produced by the standard structured-data parser
(`json.loads`).  Numbers are modelled as integers: no input considered in
this development contains a fractional literal.  Objects are association
lists with unique keys (the parser below overwrites duplicates, as Python
dicts do). -/
inductive JValue where
  | jnull : JValue
  | jbool : Bool → JValue
  | jint : Int → JValue
  | jstr : List Char → JValue
  | jarr : List JValue → JValue
  | jobj : List (List Char × JValue) → JValue

/-- A decoded JSON object: what `json.loads` returns for a `\x7b...\x7d`
fragment. -/
abbrev JObj := List (List Char × JValue)

/-- Python dict semantics for `d[k] = v`: overwrite in place if the key
exists, else append. -/
def dictInsertJ : JObj → List Char → JValue → JObj
  | [], k, v => [(k, v)]
  | (k', v') :: rest, k, v =>
    if k' = k then (k, v) :: rest else (k', v') :: dictInsertJ rest k v

/-- Characters treated as whitespace by JSON (`json.loads` skips exactly
these between tokens). -/
def jsonWs : List Char := [' ', '\t', '\n', '\r']

/-- Drop leading JSON whitespace. -/
def dropJWs (s : List Char) : List Char := s.dropWhile (fun c => jsonWs.contains c)

/-- Python `str.startswith`. -/
def strStartsWith : List Char → List Char → Bool
  | _, [] => true
  | [], _ :: _ => false
  | c :: cs, d :: ds => c = d && strStartsWith cs ds

/-- JSON string escapes supported by the model (`\uXXXX` is not modelled;
no input considered here uses it). -/
def escChar (e : Char) : Option Char :=
  if e = '"' ∨ e = '\\' ∨ e = '/' then some e
  else if e = 'n' then some '\n'
  else if e = 't' then some '\t'
  else if e = 'r' then some '\r'
  else if e = 'b' then some '\x08'
  else if e = 'f' then some '\x0c'
  else none

/-- Parse the body of a JSON string literal (after the opening quote),
returning the decoded characters and the rest of the input. -/
def parseStringBody : List Char → List Char → Option (List Char × List Char)
  | [], _ => none
  | '"' :: rest, acc => some (acc.reverse, rest)
  | '\\' :: [], _ => none
  | '\\' :: e :: rest, acc =>
    match escChar e with
    | some c => parseStringBody rest (c :: acc)
    | none => none
  | c :: rest, acc => parseStringBody rest (c :: acc)

/-- Decimal digits to a natural number. -/
def digitsToNat (ds : List Char) : Nat :=
  ds.foldl (fun a c => a * 10 + (c.toNat - 48)) 0

/-- Parse a nonempty run of decimal digits. -/
def parseNatTok (s : List Char) : Option (Nat × List Char) :=
  let ds := s.takeWhile Char.isDigit
  if ds.isEmpty then none
  else some (digitsToNat ds, s.dropWhile Char.isDigit)

mutual
/-- Recursive-descent model of `json.loads`' value grammar (fuel-indexed for
structural termination; the callers always supply enough fuel). -/
def parseValue : Nat → List Char → Option (JValue × List Char)
  | 0, _ => none
  | f + 1, s =>
    match s with
    | '{' :: rest =>
      match dropJWs rest with
      | '}' :: r2 => some (JValue.jobj [], r2)
      | r => parseMembers f r []
    | '[' :: rest =>
      match dropJWs rest with
      | ']' :: r2 => some (JValue.jarr [], r2)
      | r => parseElems f r []
    | '"' :: rest =>
      match parseStringBody rest [] with
      | some (str, r) => some (JValue.jstr str, r)
      | none => none
    | 't' :: kw => if strStartsWith kw (("rue").toList) then
        some (JValue.jbool true, kw.drop 3) else none
    | 'f' :: kw => if strStartsWith kw (("alse").toList) then
        some (JValue.jbool false, kw.drop 4) else none
    | 'n' :: kw => if strStartsWith kw (("ull").toList) then
        some (JValue.jnull, kw.drop 3) else none
    | '-' :: rest =>
      match parseNatTok rest with
      | some (n, r) => some (JValue.jint (-(n : Int)), r)
      | none => none
    | c :: rest =>
      if c.isDigit then
        match parseNatTok (c :: rest) with
        | some (n, r) => some (JValue.jint (n : Int), r)
        | none => none
      else none
    | [] => none

/-- Members of a JSON object after the opening brace (first key expected at
the head of the input). -/
def parseMembers : Nat → List Char → JObj → Option (JValue × List Char)
  | 0, _, _ => none
  | f + 1, s, acc =>
    match s with
    | '"' :: rest =>
      match parseStringBody rest [] with
      | none => none
      | some (key, r) =>
        match dropJWs r with
        | ':' :: r2 =>
          match parseValue f (dropJWs r2) with
          | none => none
          | some (v, r3) =>
            match dropJWs r3 with
            | ',' :: r4 => parseMembers f (dropJWs r4) (dictInsertJ acc key v)
            | '}' :: r4 => some (JValue.jobj (dictInsertJ acc key v), r4)
            | _ => none
        | _ => none
    | _ => none

/-- Elements of a JSON array after the opening bracket. -/
def parseElems : Nat → List Char → List JValue → Option (JValue × List Char)
  | 0, _, _ => none
  | f + 1, s, acc =>
    match parseValue f s with
    | none => none
    | some (v, r) =>
      match dropJWs r with
      | ',' :: r2 => parseElems f (dropJWs r2) (acc ++ [v])
      | ']' :: r2 => some (JValue.jarr (acc ++ [v]), r2)
      | _ => none
end

/-- Model of `json.loads`: parse one value, allowing surrounding
whitespace, and require the whole input to be consumed. -/
def jsonParse (s : List Char) : Option JValue :=
  match parseValue (s.length + 1) (dropJWs s) with
  | some (v, rest) => if dropJWs rest = [] then some v else none
  | none => none

/-- The fragment decoder used by the streaming loops: `json.loads` on a
scanned `\x7b...\x7d` span always yields a dict when it succeeds (the span
starts with a brace), so the result is returned as a `JObj`; any other
outcome is a `DecodeFailure`. -/
def decodeJObj (s : List Char) : Option JObj :=
  match jsonParse s with
  | some (JValue.jobj f) => some f
  | _ => none

/-- Characters the model treats as Python whitespace: the set matched by
`\s` in `re` and stripped by `str.strip()`, restricted to the code points
that can occur in this development (full Unicode whitespace beyond these
behaves identically). -/
def isPySpace (c : Char) : Bool :=
  [' ', '\t', '\n', '\r', '\x0b', '\x0c', '\x1c', '\x1d', '\x1e', '\x1f',
   '\x85', ' ', ' ', ' ', ' ', ' ', ' ',
   ' ', ' ', ' ', ' ', ' ', ' ', ' ',
   ' ', ' ', ' ', ' ', '　'].contains c

/-- Model of `str.lower()` restricted to the alphabets appearing in this
development: ASCII `A`-`Z` and the Cyrillic capitals `А`-`Я`, `Ё`; all other
code points are fixed (true of every other character used here). -/
def pyLower (c : Char) : Char :=
  if 'A' ≤ c ∧ c ≤ 'Z' then Char.ofNat (c.toNat + 32)
  else if 'А' ≤ c ∧ c ≤ 'Я' then Char.ofNat (c.toNat + 32)
  else if c = 'Ё' then 'ё'
  else c

/-- `str.lower()` over a whole string. -/
def pyLowerStr (s : List Char) : List Char := s.map pyLower

/-- Model of `unicodedata.normalize("NFKC", s)`: every character occurring
in this development (ASCII, basic Cyrillic) is NFKC-invariant, so the map
is the identity. -/
def nfkc (s : List Char) : List Char := s

/-- `str.strip()` with no argument: drop Python whitespace at both ends. -/
def pyStrip (s : List Char) : List Char :=
  ((s.dropWhile isPySpace).reverse.dropWhile isPySpace).reverse

/-- One pass of `re.sub(r"\s+", " ", s)`: every maximal whitespace run is
replaced by a single space.  The flag records whether the previous
character was part of a run. -/
def collapseWsAux : Bool → List Char → List Char
  | _, [] => []
  | prevWs, c :: rest =>
    if isPySpace c then
      if prevWs then collapseWsAux true rest
      else ' ' :: collapseWsAux true rest
    else c :: collapseWsAux false rest

/-- `re.sub(r"\s+", " ", s)`. -/
def collapseWs (s : List Char) : List Char := collapseWsAux false s

/-- The three explicit replacements `u_norm` performs before collapsing
whitespace. -/
def replaceNarrowSpaces (s : List Char) : List Char :=
  s.map (fun c => if c = ' ' ∨ c = ' ' ∨ c = ' ' then ' ' else c)

/-- `u_norm` from the source: NFKC-normalize, replace no-break/thin/narrow
spaces by plain spaces, collapse whitespace runs, strip.  The source first
applies `str(s)`; callers below stringify before invoking this. -/
def u_norm (s : List Char) : List Char :=
  pyStrip (collapseWs (replaceNarrowSpaces (nfkc s)))

/-- Python `needle in hay` for strings: substring containment. -/
def strContains : List Char → List Char → Bool
  | [], needle => needle.isEmpty
  | c :: rest, needle => strStartsWith (c :: rest) needle || strContains rest needle

/-- Python truthiness of a JSON value (`bool(v)`). -/
def jTruthy : JValue → Bool
  | JValue.jnull => false
  | JValue.jbool b => b
  | JValue.jint n => n ≠ 0
  | JValue.jstr s => ¬s.isEmpty
  | JValue.jarr xs => ¬xs.isEmpty
  | JValue.jobj f => ¬f.isEmpty

/-- Separator-joined rendering used by the `str()` model on containers. -/
def pyReprList (render : JValue → List Char) : List JValue → List Char
  | [] => []
  | [x] => render x
  | x :: y :: rest => render x ++ [',', ' '] ++ pyReprList render (y :: rest)

mutual
/-- Best-effort model of Python `repr` on decoded JSON values (only
reachable through `str()` of a non-scalar, a corner no claim exercises;
scalars are exact). -/
def pyRepr : JValue → List Char
  | JValue.jnull => 'N' :: 'o' :: 'n' :: 'e' :: []
  | JValue.jbool b => if b then 'T' :: 'r' :: 'u' :: 'e' :: [] else 'F' :: 'a' :: 'l' :: 's' :: 'e' :: []
  | JValue.jint n => (toString n).toList
  | JValue.jstr s => '\'' :: s ++ ['\'']
  | JValue.jarr xs => '[' :: pyReprInner xs ++ [']']
  | JValue.jobj f => '\x7b' :: pyReprFields f ++ ['\x7d']

/-- `repr` of the elements of a list. -/
def pyReprInner : List JValue → List Char
  | [] => []
  | [x] => pyRepr x
  | x :: y :: rest => pyRepr x ++ [',', ' '] ++ pyReprInner (y :: rest)

/-- `repr` of the fields of a dict. -/
def pyReprFields : JObj → List Char
  | [] => []
  | [(k, v)] => '\'' :: k ++ '\'' :: ':' :: ' ' :: pyRepr v
  | (k, v) :: p :: rest => '\'' :: k ++ '\'' :: ':' :: ' ' :: pyRepr v ++ [',', ' '] ++ pyReprFields (p :: rest)
end

/-- Model of Python `str(v)` on a decoded JSON value. -/
def pyStr : JValue → List Char
  | JValue.jstr s => s
  | JValue.jint n => (toString n).toList
  | JValue.jbool b => if b then 'T' :: 'r' :: 'u' :: 'e' :: [] else 'F' :: 'a' :: 'l' :: 's' :: 'e' :: []
  | JValue.jnull => 'N' :: 'o' :: 'n' :: 'e' :: []
  | v => pyRepr v

/-- Python `d.get(k)` on a decoded object: `none` models the `None` Python
returns both for a missing key and for a stored JSON `null`. -/
def jGetPy (m : JObj) (k : List Char) : Option JValue :=
  match m.lookup k with
  | some JValue.jnull => none
  | some v => some v
  | none => none

/-- Python `d.get(k, default)`: the stored value (including a stored
`null`) or the default. -/
def jGetD (m : JObj) (k : List Char) (d : JValue) : JValue :=
  match m.lookup k with
  | some v => v
  | none => d

/-- Python `a or b` on a possibly-`None` JSON value. -/
def jOrOpt (a : Option JValue) (b : JValue) : JValue :=
  match a with
  | some v => if jTruthy v then v else b
  | none => b

/-- Python `a or b` on strings. -/
def pyOrStr (a b : List Char) : List Char := if a.isEmpty then b else a

/-- Python truthiness of an optional string (`None` and `""` are falsy). -/
def pyTruthyOptStr : Option (List Char) → Bool
  | none => false
  | some s => ¬s.isEmpty

/-- Python truthiness of an optional integer offset (`None` and `0` are
falsy). -/
def pyTruthyOptNat : Option Nat → Bool
  | none => false
  | some n => n ≠ 0

/-- The scanner's skip set `SKIP`: space, CR, LF, tab, comma, BOM, no-break
space, thin space, narrow no-break space. -/
def SKIP : List Char := [' ', '\r', '\n', '\t', ',', '\uFEFF', '\u00A0', '\u2009', '\u202F']

/-- Fuel-indexed `while idx < n and p(s[idx]): idx += 1` loop (the fuel is
a termination device only; callers pass at least `s.length + 1`, which the
sufficiency lemmas show is enough). -/
def skipClassF (p : Char → Bool) : Nat → List Char → Nat → Nat
  | 0, _, idx => idx
  | f + 1, s, idx =>
    if h : idx < s.length then
      if p (s[idx]) then skipClassF p f s (idx + 1) else idx
    else idx

/-- Offset after skipping leading `SKIP` characters, as in the first loop
of `stream_next_object`. -/
def skipIdx (s : List Char) (idx : Nat) : Nat :=
  skipClassF (fun c => SKIP.contains c) (s.length + 1) s idx

/-- The scanning loop of `stream_next_object`: brace depth, string mode and
escape flag, fuel-indexed.  On `\x7d` outside a string the depth is
decremented and, at zero, the fragment `s[start:idx+1]` and the offset just
past it are returned. -/
def scanLoopF : Nat → List Char → Nat → Nat → Int → Bool → Bool → Option (List Char) × Nat
  | 0, _, idx, _, _, _, _ => (none, idx)
  | f + 1, s, idx, start, depth, in_str, esc =>
    if h : idx < s.length then
      if in_str then
        if esc then scanLoopF f s (idx + 1) start depth in_str false
        else if s[idx] = '\\' then scanLoopF f s (idx + 1) start depth in_str true
        else if s[idx] = '"' then scanLoopF f s (idx + 1) start depth false esc
        else scanLoopF f s (idx + 1) start depth in_str esc
      else
        if s[idx] = '"' then scanLoopF f s (idx + 1) start depth true esc
        else if s[idx] = '{' then scanLoopF f s (idx + 1) start (depth + 1) in_str esc
        else if s[idx] = '}' then
          if depth - 1 = 0 then (some ((s.drop start).take (idx + 1 - start)), idx + 1)
          else scanLoopF f s (idx + 1) start (depth - 1) in_str esc
        else scanLoopF f s (idx + 1) start depth in_str esc
    else (none, idx)

/-- `stream_next_object(s, idx)`: skip leading `SKIP` characters; if the
next character is not an opening brace (or the input is exhausted) report
no fragment at the advanced offset, otherwise run the depth/string/escape
scanning loop from the brace. -/
def stream_next_object (s : List Char) (idx : Nat) : Option (List Char) × Nat :=
  if h : skipIdx s idx < s.length then
    if s[skipIdx s idx] = '{' then
      scanLoopF (s.length + 1) s (skipIdx s idx) (skipIdx s idx) 0 false false
    else (none, skipIdx s idx)
  else (none, skipIdx s idx)

/-- Modelled from the spec's words (section 4.1): the per-character state
update of the scan — a string-mode flag toggled on unescaped quotes, an
escape flag set by a backslash inside a string and cleared after one
character, and a brace-depth counter touched only outside strings. -/
def scanStep : Int × Bool × Bool → Char → Int × Bool × Bool
  | (depth, in_str, esc), ch =>
    if in_str then
      if esc then (depth, in_str, false)
      else if ch = '\\' then (depth, in_str, true)
      else if ch = '"' then (depth, false, esc)
      else (depth, in_str, esc)
    else
      if ch = '"' then (depth, true, esc)
      else if ch = '{' then (depth + 1, in_str, esc)
      else if ch = '}' then (depth - 1, in_str, esc)
      else (depth, in_str, esc)

/-- Modelled from the spec's words: the first position `j ≥ k` at which the
spec's depth counter returns to zero, folding `scanStep` over the text.
`spec_matching_close s i` (started at an opening brace with the initial
state) is the position of that brace's depth-matching closing brace. -/
def firstZeroF : Nat → List Char → Nat → Int × Bool × Bool → Option Nat
  | 0, _, _, _ => none
  | f + 1, s, k, st =>
    if h : k < s.length then
      if (scanStep st (s[k])).1 = 0 then some k
      else firstZeroF f s (k + 1) (scanStep st (s[k]))
    else none

/-- The depth-matching closing brace of the opening brace at position `i`,
per the spec's tracking rules. -/
def spec_matching_close (s : List Char) (i : Nat) : Option Nat :=
  firstZeroF (s.length + 1) s i (0, false, false)

/-- Literal `"messages"` (with quotes), the message-collection marker's
leading literal. -/
def kQMessages : List Char := ("\"messages\"").toList

/-- Literal `"chats"` (with quotes). -/
def kQChats : List Char := ("\"chats\"").toList

/-- Literal `"list"` (with quotes). -/
def kQList : List Char := ("\"list\"").toList

/-- Literal `"name"` (with quotes). -/
def kQName : List Char := ("\"name\"").toList

/-- Literal `"id"` (with quotes). -/
def kQId : List Char := ("\"id\"").toList

/-- Match a literal at position `i`; on success return the position just
past it. -/
def litAt : List Char → Nat → List Char → Option Nat
  | _, i, [] => some i
  | s, i, c :: cs =>
    if h : i < s.length then
      if s[i] = c then litAt s (i + 1) cs else none
    else none

/-- Position after the maximal run of regex whitespace (`\s*`) starting at
`i`. -/
def skipWsIdx (s : List Char) (i : Nat) : Nat :=
  skipClassF isPySpace (s.length + 1) s i

/-- Generic leftmost `re.search`: try the matcher at every position from
`i` on, returning the first success (fuel-indexed). -/
def reSearchFrom {α : Type} (m : List Char → Nat → Option α) : Nat → List Char → Nat → Option α
  | 0, _, _ => none
  | f + 1, s, i =>
    if i < s.length then
      match m s i with
      | some r => some r
      | none => reSearchFrom m f s (i + 1)
    else none

/-- `re.search` over the whole string. -/
def reSearch {α : Type} (m : List Char → Nat → Option α) (s : List Char) : Option α :=
  reSearchFrom m (s.length + 1) s 0

/-- One attempt of the pattern `"messages"\s*:\s*\[` at position `i`,
returning the match end (the offset just past the bracket). -/
def matchMsgMarkerAt (s : List Char) (i : Nat) : Option Nat :=
  match litAt s i kQMessages with
  | none => none
  | some j =>
    match litAt s (skipWsIdx s j) [':'] with
    | none => none
    | some j2 => litAt s (skipWsIdx s j2) ['[']

/-- `find_messages_array_in`: `m.end()` of the first match of
`"messages"\s*:\s*\[`, or `None`. -/
def find_messages_array_in (container : List Char) : Option Nat :=
  reSearch matchMsgMarkerAt container

/-- One attempt of the pattern `"chats"\s*:\s*\{\s*"list"\s*:\s*\[` at
position `i`, returning the match end. -/
def matchChatsListAt (s : List Char) (i : Nat) : Option Nat :=
  match litAt s i kQChats with
  | none => none
  | some j =>
    match litAt s (skipWsIdx s j) [':'] with
    | none => none
    | some j2 =>
      match litAt s (skipWsIdx s j2) ['{'] with
      | none => none
      | some j3 =>
        match litAt s (skipWsIdx s j3) kQList with
        | none => none
        | some j4 =>
          match litAt s (skipWsIdx s j4) [':'] with
          | none => none
          | some j5 => litAt s (skipWsIdx s j5) ['[']

/-- `find_chats_list_start`, made total: the offset just past the
conversation-list marker, or `none` when the marker is absent (the source
only calls it after `has_chats_list`, where it cannot raise). -/
def find_chats_list_start (raw : List Char) : Option Nat :=
  reSearch matchChatsListAt raw

/-- `has_chats_list`. -/
def has_chats_list (raw : List Char) : Bool :=
  (find_chats_list_start raw).isSome

/-- One attempt of `"name"\s*:\s*"([^"]*)"` at position `i`, returning the
captured group. -/
def matchNameAt (s : List Char) (i : Nat) : Option (List Char) :=
  match litAt s i kQName with
  | none => none
  | some j =>
    match litAt s (skipWsIdx s j) [':'] with
    | none => none
    | some j2 =>
      match litAt s (skipWsIdx s j2) ['"'] with
      | none => none
      | some j3 =>
        let e := skipClassF (fun c => c ≠ '"') (s.length + 1) s j3
        match litAt s e ['"'] with
        | none => none
        | some _ => some ((s.drop j3).take (e - j3))

/-- `chat_name_from_obj_str`: first `"name": "..."` capture, else `""`. -/
def chat_name_from_obj_str (s : List Char) : List Char :=
  (reSearch matchNameAt s).getD []

/-- One attempt of `"id"\s*:\s*([0-9]+)` at position `i`, returning the
numeric value of the (maximal) digit group. -/
def matchIdAt (s : List Char) (i : Nat) : Option Nat :=
  match litAt s i kQId with
  | none => none
  | some j =>
    match litAt s (skipWsIdx s j) [':'] with
    | none => none
    | some j2 =>
      let j3 := skipWsIdx s j2
      let e := skipClassF Char.isDigit (s.length + 1) s j3
      if e = j3 then none else some (digitsToNat ((s.drop j3).take (e - j3)))

/-- `chat_id_from_obj_str`: integer value of the first `"id": <digits>`
occurrence, or `None`. -/
def chat_id_from_obj_str (s : List Char) : Option Int :=
  (reSearch matchIdAt s).map (fun n => (n : Int))

/-- The scan-decode loop of `stream_parse_messages_from_container`: on a
falsy fragment advance one character; otherwise decode (failures silently
dropped) and jump past the fragment, always advancing by at least one
character. -/
def msgLoopF : Nat → List Char → Nat → List JObj
  | 0, _, _ => []
  | f + 1, after, idx =>
    if idx < after.length then
      match stream_next_object after idx with
      | (none, _) => msgLoopF f after (idx + 1)
      | (some o, idx2) =>
        if o.isEmpty then msgLoopF f after (idx + 1)
        else
          let next := if idx2 > idx then idx2 else idx + 1
          match decodeJObj o with
          | some obj => obj :: msgLoopF f after next
          | none => msgLoopF f after next
    else []

/-- `stream_parse_messages_from_container`: locate the message-collection
marker (falsy search result means no messages) and run the scan-decode
loop over the rest of the container. -/
def stream_parse_messages_from_container (container : List Char) : List JObj :=
  let start := find_messages_array_in container
  if pyTruthyOptNat start then
    let after := container.drop (start.getD 0)
    msgLoopF (after.length + 1) after 0
  else []

/-- Literal `saved messages`. -/
def kSavedMessages : List Char := ("saved messages").toList

/-- Literal `избранное` (the export's localized self-notes name). -/
def kIzbrannoe : List Char := ("избранное").toList

/-- Literal `саня` (the hardcoded short placeholder name). -/
def kSanya : List Char := ("саня").toList

/-- `is_saved_chat`: the normalized, lowercased name contains
`saved messages` or `избранное`, or equals `саня`. -/
def is_saved_chat (name : List Char) : Bool :=
  let n := pyLowerStr (u_norm name)
  strContains n kSavedMessages || strContains n kIzbrannoe || n = kSanya

/-- A discovered conversation: raw container text, optional numeric id,
display name. -/
structure ChatEntry where
  container : List Char
  cid : Option Int
  name : List Char
deriving DecidableEq, Repr

/-- Placeholder name for a discovered conversation without a `"name"`
field. -/
def kNoName : List Char := ("(без названия)").toList

/-- Placeholder name for the whole-input fallback conversation. -/
def kSingleChat : List Char := ("(single chat export)").toList

/-- The triple a qualifying fragment contributes to the discovery list. -/
def mkChatEntry (objStr : List Char) : ChatEntry :=
  ⟨objStr, chat_id_from_obj_str objStr, pyOrStr (chat_name_from_obj_str objStr) kNoName⟩

/-- The discovery loop shared by the wrapped and unwrapped modes of
`list_all_chats`: scan fragment by fragment, keep those containing the
message-collection marker, stop at input exhaustion or the safety cap. -/
def listChatsLoopF : Nat → List Char → Nat → Nat → Nat → List ChatEntry → List ChatEntry
  | 0, _, _, _, _, out => out
  | f + 1, raw, i, k, cap, out =>
    if i < raw.length ∧ k < cap then
      match stream_next_object raw i with
      | (none, _) => listChatsLoopF f raw (i + 1) k cap out
      | (some o, i2) =>
        if o.isEmpty then listChatsLoopF f raw (i + 1) k cap out
        else
          let next := if i2 > i then i2 else i + 1
          if pyTruthyOptNat (find_messages_array_in o) then
            listChatsLoopF f raw next (k + 1) cap (out ++ [mkChatEntry o])
          else listChatsLoopF f raw next k cap out
    else out

/-- `list_all_chats`: wrapped mode scans after the conversation-list
marker; unwrapped mode scans the whole input from offset 0 and, if nothing
qualifies, falls back to the entire input as a single conversation. -/
def list_all_chats (raw : List Char) (cap : Nat) : List ChatEntry :=
  match find_chats_list_start raw with
  | some i => listChatsLoopF (raw.length + 1) raw i 0 cap []
  | none =>
    let out := listChatsLoopF (raw.length + 1) raw 0 0 cap []
    if out.isEmpty then
      [⟨raw, chat_id_from_obj_str raw, pyOrStr (chat_name_from_obj_str raw) kSingleChat⟩]
    else out

/-- The `ValueError`s `pick_chat_container` can raise. -/
inductive PickError where
  | noChats : PickError
  | notFoundById : Int → PickError
  | notFoundByName : List Char → PickError
deriving DecidableEq, Repr

/-- `pick_chat_container`: id match first, then the three name tiers
(exact, substring, starts-with, all on normalized lowercased names), else
the first conversation that is not the self-notes pseudo-conversation,
else the very first conversation. -/
def pick_chat_container (raw : List Char) (chat_query : Option (List Char)) (chat_id : Option Int) :
    Except PickError (List Char × List Char) :=
  let chats := list_all_chats raw 10000
  match chats with
  | [] => Except.error PickError.noChats
  | c0 :: _ =>
    match chat_id with
    | some cid =>
      match chats.find? (fun c => c.cid == some cid) with
      | some c => Except.ok (c.container, c.name)
      | none => Except.error (PickError.notFoundById cid)
    | none =>
      if pyTruthyOptStr chat_query then
        let q := pyLowerStr (u_norm (chat_query.getD []))
        match chats.find? (fun c => pyLowerStr (u_norm c.name) == q) with
        | some c => Except.ok (c.container, c.name)
        | none =>
          match chats.find? (fun c => strContains (pyLowerStr (u_norm c.name)) q) with
          | some c => Except.ok (c.container, c.name)
          | none =>
            match chats.find? (fun c => strStartsWith (pyLowerStr (u_norm c.name)) q) with
            | some c => Except.ok (c.container, c.name)
            | none => Except.error (PickError.notFoundByName (chat_query.getD []))
      else
        match chats.find? (fun c => !is_saved_chat c.name) with
        | some c => Except.ok (c.container, c.name)
        | none => Except.ok (c0.container, c0.name)

/-- Key literal `type`. -/
def kType : List Char := ("type").toList

/-- Value literal `message`. -/
def kMessage : List Char := ("message").toList

/-- Key literal `id`. -/
def kId : List Char := ("id").toList

/-- Key literal `date`. -/
def kDate : List Char := ("date").toList

/-- Key literal `text`. -/
def kText : List Char := ("text").toList

/-- Key literal `from`. -/
def kFrom : List Char := ("from").toList

/-- Key literal `actor`. -/
def kActor : List Char := ("actor").toList

/-- Key literal `from_id`. -/
def kFromId : List Char := ("from_id").toList

/-- Key literal `reply_to_message_id`. -/
def kReplyTo : List Char := ("reply_to_message_id").toList

/-- Prefix literal `user`. -/
def kUser : List Char := ("user").toList

/-- Model of Python `int(v)` on a decoded JSON value: exact on integers,
`True`/`False` are 1/0, strings must be (optionally signed, optionally
whitespace-padded) decimal; everything else raised an exception, modelled
as `none`. -/
def pyStrToInt (s : List Char) : Option Int :=
  match pyStrip s with
  | '-' :: ds => if ¬ds.isEmpty ∧ ds.all Char.isDigit then some (-(digitsToNat ds : Int)) else none
  | '+' :: ds => if ¬ds.isEmpty ∧ ds.all Char.isDigit then some ((digitsToNat ds : Int)) else none
  | ds => if ¬ds.isEmpty ∧ ds.all Char.isDigit then some ((digitsToNat ds : Int)) else none

/-- `int()` on a JSON value. -/
def pyInt : JValue → Option Int
  | JValue.jint n => some n
  | JValue.jbool b => some (if b then 1 else 0)
  | JValue.jstr s => pyStrToInt s
  | _ => none

/-- The list branch of `extract_text`: concatenate plain-string elements
and the `text` property of dict elements (other elements are skipped).
`none` models the `TypeError` `"".join` raises when a dict element's
`text` property exists but is not a string. -/
def flattenParts : List JValue → Option (List Char)
  | [] => some []
  | JValue.jstr s :: xs => (flattenParts xs).map (fun r => s ++ r)
  | JValue.jobj f :: xs =>
    match jGetD f kText (JValue.jstr []) with
    | JValue.jstr s => (flattenParts xs).map (fun r => s ++ r)
    | _ => none
  | _ :: xs => flattenParts xs

/-- `extract_text`: a plain string is returned as-is, a list is flattened,
anything else yields `""`. -/
def extract_text (msg : JObj) : Option (List Char) :=
  match jGetD msg kText (JValue.jstr []) with
  | JValue.jstr s => some s
  | JValue.jarr xs => flattenParts xs
  | _ => some []

/-- `norm_sender`: `u_norm` of the first truthy of `from`, `actor`,
`from_id`, else `""` (Python stringifies before normalizing). -/
def norm_sender (m : JObj) : List Char :=
  u_norm (pyStr (jOrOpt (jGetPy m kFrom)
    (jOrOpt (jGetPy m kActor) (jOrOpt (jGetPy m kFromId) (JValue.jstr [])))))

/-- `norm_from_id`: the `from_id` field as a string, `""` when absent or
`null`. -/
def norm_from_id (m : JObj) : List Char :=
  match jGetPy m kFromId with
  | none => []
  | some v => pyStr v

/-- `want_user_id_string`: `user305696040` for 305696040, `None` for
`None`. -/
def want_user_id_string : Option Int → Option (List Char)
  | none => none
  | some uid => some (kUser ++ (toString uid).toList)

/-- One output row (`rows.append(...)` in
`collect_rows_from_container`).  Optional fields model values that may be
Python `None`. -/
structure OutputRow where
  chat : List Char
  id : Option JValue
  date : Option JValue
  from_ : List Char
  from_id : List Char
  text : List Char
  reply_to_id : Option JValue
  reply_from : List Char
  reply_date : JValue
  reply_text : List Char

/-- Python dict insert for the integer-keyed message index. -/
def dictInsertI : List (Int × JObj) → Int → JObj → List (Int × JObj)
  | [], k, v => [(k, v)]
  | (k', v') :: rest, k, v =>
    if k' = k then (k, v) :: rest else (k', v') :: dictInsertI rest k v

/-- Python `dict.get` for the integer-keyed message index. -/
def dictGetI : List (Int × JObj) → Int → Option JObj
  | [], _ => none
  | (k', v) :: rest, k => if k' = k then some v else dictGetI rest k

/-- The accumulation loop of `build_id_index`: keep records of type
`message` whose `id` converts to an integer; later occurrences overwrite
earlier ones. -/
def build_id_index_aux (acc : List (Int × JObj)) : List JObj → List (Int × JObj)
  | [] => acc
  | m :: rest =>
    match jGetPy m kType with
    | some (JValue.jstr t) =>
      if t = kMessage then
        match jGetPy m kId with
        | none => build_id_index_aux acc rest
        | some iv =>
          match pyInt iv with
          | none => build_id_index_aux acc rest
          | some mid => build_id_index_aux (dictInsertI acc mid m) rest
      else build_id_index_aux acc rest
    | _ => build_id_index_aux acc rest

/-- `build_id_index`. -/
def build_id_index (messages : List JObj) : List (Int × JObj) :=
  build_id_index_aux [] messages

/-- The author filter of `collect_rows_from_container`: with a truthy
synthesized author-id string, exact comparison against `norm_from_id`;
otherwise name comparison — exact equality of the normalized sender with
the raw query, or containment of the lowercased query in the lowercased
normalized sender. -/
def author_pass (want_uid_str : Option (List Char)) (user_query : Option (List Char))
    (uq : List Char) (exact : Bool) (msg : JObj) : Bool :=
  if pyTruthyOptStr want_uid_str then
    norm_from_id msg = want_uid_str.getD []
  else
    let sender := norm_sender msg
    let s_norm := pyLowerStr sender
    if exact then sender = user_query.getD []
    else strContains s_norm uq

/-- One iteration of the row loop after the type and author filters:
extract/trim the text (skip the message when empty), then resolve the
reply reference through the index.  `Except.error` models the uncaught
`TypeError` `extract_text` can raise. -/
def row_for (id_index : List (Int × JObj)) (chat_name : List Char) (msg : JObj) :
    Except Unit (Option OutputRow) :=
  match extract_text msg with
  | none => Except.error ()
  | some t0 =>
    let text := pyStrip t0
    if text.isEmpty then Except.ok none
    else
      let mid := jGetPy msg kId
      let date := jGetPy msg kDate
      let reply_id := jGetPy msg kReplyTo
      match reply_id with
      | none =>
        Except.ok (some ⟨chat_name, mid, date, norm_sender msg, norm_from_id msg, text,
          none, [], JValue.jstr [], []⟩)
      | some rv =>
        let rmsg := match pyInt rv with
          | none => none
          | some n => dictGetI id_index n
        match rmsg with
        | none =>
          Except.ok (some ⟨chat_name, mid, date, norm_sender msg, norm_from_id msg, text,
            some rv, [], JValue.jstr [], []⟩)
        | some rm =>
          if rm.isEmpty then
            Except.ok (some ⟨chat_name, mid, date, norm_sender msg, norm_from_id msg, text,
              some rv, [], JValue.jstr [], []⟩)
          else
            match extract_text rm with
            | none => Except.error ()
            | some rt0 =>
              Except.ok (some ⟨chat_name, mid, date, norm_sender msg, norm_from_id msg, text,
                some rv, norm_sender rm, jOrOpt (jGetPy rm kDate) (JValue.jstr []), pyStrip rt0⟩)

/-- The per-message loop of `collect_rows_from_container`: skip
non-`message` records, apply the author filter, then `row_for`. -/
def collect_rows_loop (id_index : List (Int × JObj)) (chat_name : List Char)
    (want_uid_str : Option (List Char)) (user_query : Option (List Char)) (uq : List Char)
    (exact : Bool) : List JObj → Except Unit (List OutputRow)
  | [] => Except.ok []
  | msg :: rest =>
    match jGetPy msg kType with
    | some (JValue.jstr t) =>
      if t = kMessage then
        if author_pass want_uid_str user_query uq exact msg then
          match row_for id_index chat_name msg with
          | Except.error e => Except.error e
          | Except.ok none => collect_rows_loop id_index chat_name want_uid_str user_query uq exact rest
          | Except.ok (some r) =>
            match collect_rows_loop id_index chat_name want_uid_str user_query uq exact rest with
            | Except.error e => Except.error e
            | Except.ok rows => Except.ok (r :: rows)
        else collect_rows_loop id_index chat_name want_uid_str user_query uq exact rest
      else collect_rows_loop id_index chat_name want_uid_str user_query uq exact rest
    | _ => collect_rows_loop id_index chat_name want_uid_str user_query uq exact rest

/-- The body of `collect_rows_from_container` after the container has been
stream-parsed into decoded messages. -/
def collect_rows_from_messages (messages : List JObj) (chat_name : List Char)
    (user_id : Option Int) (user_query : Option (List Char)) (exact : Bool) :
    Except Unit (List OutputRow) :=
  let id_index := build_id_index messages
  let want_uid_str := want_user_id_string user_id
  let uq := if pyTruthyOptStr user_query then pyLowerStr (user_query.getD []) else []
  collect_rows_loop id_index chat_name want_uid_str user_query uq exact messages

/-- `collect_rows_from_container`. -/
def collect_rows_from_container (container_str : List Char) (chat_name : List Char)
    (user_id : Option Int) (user_query : Option (List Char)) (exact : Bool) :
    Except Unit (List OutputRow) :=
  collect_rows_from_messages (stream_parse_messages_from_container container_str)
    chat_name user_id user_query exact

/-- Iteration counter for the scan-decode loop: same control flow as
`msgLoopF`, counting loop iterations instead of collecting messages. -/
def msgLoopStepsF : Nat → List Char → Nat → Nat
  | 0, _, _ => 0
  | f + 1, after, idx =>
    if idx < after.length then
      match stream_next_object after idx with
      | (none, _) => msgLoopStepsF f after (idx + 1) + 1
      | (some o, idx2) =>
        if o.isEmpty then msgLoopStepsF f after (idx + 1) + 1
        else msgLoopStepsF f after (if idx2 > idx then idx2 else idx + 1) + 1
    else 0

/-- A record `build_id_index` would file under key `N`: type `message` and
an `id` field whose `int()` conversion equals `N`. -/
def isQualified (N : Int) (m : JObj) : Bool :=
  match jGetPy m kType with
  | some (JValue.jstr t) =>
    if t = kMessage then
      match jGetPy m kId with
      | some iv =>
        match pyInt iv with
        | some mid => mid = N
        | none => false
      | none => false
    else false
  | _ => false

/-- The last record in scan order that `build_id_index` files under key
`N` (later occurrences overwrite earlier ones). -/
def lastQualified (msgs : List JObj) (N : Int) : Option JObj :=
  match msgs with
  | [] => none
  | m :: rest =>
    match lastQualified rest N with
    | some r => some r
    | none => if isQualified N m then some m else none

/-- Example: a fragment with braces inside a string value. -/
def exC1 : List Char := ("\x7b\"text\":\"a\x7bb\x7dc\"\x7d").toList

/-- Example: an opening brace never closed. -/
def exBrace : List Char := ("\x7bx").toList

/-- Example: a minimal balanced fragment. -/
def exPair : List Char := ("\x7b\x7d").toList

/-- Example: text with no fragment at all. -/
def exAB : List Char := ("ab").toList

/-- Example: a messages region with two balanced message objects separated
by non-brace garbage. -/
def exC3 : List Char :=
  ("\x7b\"name\":\"c\",\"messages\":[\x7b\"id\":1,\"type\":\"message\",\"text\":\"hi\"\x7dGARBAGE\x7b\"id\":2,\"type\":\"message\",\"text\":\"bye\"\x7d]\x7d").toList

/-- Example: the same region with a balanced-but-undecodable span between
the two messages. -/
def exC3bad : List Char :=
  ("\x7b\"name\":\"c\",\"messages\":[\x7b\"id\":1,\"type\":\"message\",\"text\":\"hi\"\x7d\x7bbad\x7d\x7b\"id\":2,\"type\":\"message\",\"text\":\"bye\"\x7d]\x7d").toList

/-- The first decoded message of the tolerant-recovery examples. -/
def msgHi : JObj :=
  [(kId, JValue.jint 1), (kType, JValue.jstr kMessage), (kText, JValue.jstr (("hi").toList))]

/-- The second decoded message of the tolerant-recovery examples. -/
def msgBye : JObj :=
  [(kId, JValue.jint 2), (kType, JValue.jstr kMessage), (kText, JValue.jstr (("bye").toList))]

/-- Example export with a conversation list holding `Saved Messages` and
`Alice`, in that order. -/
def rawSA : List Char :=
  ("\x7b\"chats\":\x7b\"list\":[\x7b\"name\":\"Saved Messages\",\"messages\":[\x7b\"id\":7\x7d]\x7d,\x7b\"name\":\"Alice\",\"messages\":[]\x7d]\x7d\x7d").toList

/-- The `Saved Messages` conversation discovered in `rawSA`. -/
def savedEntry : ChatEntry :=
  ⟨("\x7b\"name\":\"Saved Messages\",\"messages\":[\x7b\"id\":7\x7d]\x7d").toList, some 7,
    ("Saved Messages").toList⟩

/-- The `Alice` conversation discovered in `rawSA`. -/
def aliceEntry : ChatEntry :=
  ⟨("\x7b\"name\":\"Alice\",\"messages\":[]\x7d").toList, none, ("Alice").toList⟩

/-- Example input with no conversation-list marker and no balanced
fragment. -/
def rawX : List Char := ("x").toList

/-- Example input with a conversation-list marker whose fragments lack a
message collection. -/
def raw10 : List Char := ("\"chats\":\x7b\"list\":[\x7b\"a\":1\x7d]").toList

/-- The sender name of the author-filter example. -/
def tatName : List Char := ("Татьяна").toList

/-- A message from sender `Татьяна` with nonempty text. -/
def msgTat : JObj :=
  [(kType, JValue.jstr kMessage), (kFrom, JValue.jstr tatName),
   (kText, JValue.jstr (("hello").toList))]

/-- A conversation name used by several concrete instances. -/
def chatC : List Char := ("c").toList

/-- Reply-resolution example: the referenced message, id 5. -/
def msgOrig : JObj :=
  [(kId, JValue.jint 5), (kType, JValue.jstr kMessage),
   (kFrom, JValue.jstr (("Bob").toList)), (kText, JValue.jstr (("original").toList))]

/-- Reply-resolution example: the replying message, id 6, referencing 5. -/
def msgReply : JObj :=
  [(kId, JValue.jint 6), (kType, JValue.jstr kMessage),
   (kFrom, JValue.jstr (("Ann").toList)), (kText, JValue.jstr (("thanks").toList)),
   (kReplyTo, JValue.jint 5)]

/-- The reply-resolution example conversation. -/
def msgs4 : List JObj := [msgOrig, msgReply]

/-- The row emitted for `msgOrig`. -/
def row5 : OutputRow :=
  ⟨chatC, some (JValue.jint 5), none, ("Bob").toList, [], ("original").toList,
    none, [], JValue.jstr [], []⟩

/-- The row emitted for `msgReply`, with the reply context resolved from
`msgOrig`. -/
def row6 : OutputRow :=
  ⟨chatC, some (JValue.jint 6), none, ("Ann").toList, [], ("thanks").toList,
    some (JValue.jint 5), ("Bob").toList, JValue.jstr [], ("original").toList⟩

/-- Author-id filter example: a message whose `from_id` is
`user305696040`. -/
def msgU : JObj :=
  [(kType, JValue.jstr kMessage), (kFromId, JValue.jstr (("user305696040").toList)),
   (kText, JValue.jstr (("hi").toList))]

/-- Text-flattening example: `["see ", {"type":"link","text":"here"}, " now"]`
(braces shown for the decoded shape). -/
def exFlattenMsg : JObj :=
  [(kText, JValue.jarr [JValue.jstr (("see ").toList),
    JValue.jobj [(kType, JValue.jstr (("link").toList)), (kText, JValue.jstr (("here").toList))],
    JValue.jstr ((" now").toList)])]

/-- A message whose flattened text trims to empty. -/
def msgEmptyText : JObj :=
  [(kType, JValue.jstr kMessage), (kFrom, JValue.jstr (("Bob").toList)),
   (kText, JValue.jstr (("   ").toList))]

/-- A skip loop never moves the offset backwards. -/
theorem skipClassF_ge (p : Char → Bool) (f : Nat) : ∀ (s : List Char) (idx : Nat),
    idx ≤ skipClassF p f s idx := by
  induction f with
  | zero => intro s idx; simp [skipClassF]
  | succ f ih =>
    intro s idx
    unfold skipClassF
    split
    · split
      · exact le_trans (Nat.le_succ idx) (ih s (idx + 1))
      · exact le_rfl
    · exact le_rfl

/-- A skip loop never moves the offset past the end of the input. -/
theorem skipClassF_le (p : Char → Bool) (f : Nat) : ∀ (s : List Char) (idx : Nat),
    idx ≤ s.length → skipClassF p f s idx ≤ s.length := by
  induction f with
  | zero => intro s idx h; simpa [skipClassF] using h
  | succ f ih =>
    intro s idx h
    unfold skipClassF
    split
    · split
      · exact ih s (idx + 1) (by omega)
      · exact h
    · exact h

/-- The position of the depth-matching close is at or after the start of
the search. -/
theorem firstZeroF_ge (f : Nat) : ∀ (s : List Char) (k : Nat) (st : Int × Bool × Bool) (j : Nat),
    firstZeroF f s k st = some j → k ≤ j := by
  induction f with
  | zero => intro s k st j h; simp [firstZeroF] at h
  | succ f ih =>
    intro s k st j h
    unfold firstZeroF at h
    split at h
    · split at h
      · injection h with h2; omega
      · exact le_trans (Nat.le_succ k) (ih s (k + 1) _ j h)
    · exact absurd h (by simp)

/-- The depth-matching close is inside the input. -/
theorem firstZeroF_lt (f : Nat) : ∀ (s : List Char) (k : Nat) (st : Int × Bool × Bool) (j : Nat),
    firstZeroF f s k st = some j → j < s.length := by
  induction f with
  | zero => intro s k st j h; simp [firstZeroF] at h
  | succ f ih =>
    intro s k st j h
    unfold firstZeroF at h
    split at h
    · rename_i hk
      split at h
      · injection h with h2; omega
      · exact ih s (k + 1) _ j h
    · exact absurd h (by simp)


/-- With positive depth, the spec's depth counter reaches zero only by a
closing brace outside a string at depth one. -/
theorem scanStep_fst_zero (d : Int) (i e : Bool) (ch : Char) (hd : 1 ≤ d)
    (hz : (scanStep (d, i, e) ch).1 = 0) : i = false ∧ ch = '}' ∧ d = 1 := by
  cases i with
  | true =>
    cases e with
    | true => simp [scanStep] at hz; omega
    | false =>
      by_cases h1 : ch = '\\'
      · simp [scanStep, h1] at hz; omega
      · by_cases h2 : ch = '"' <;> simp [scanStep, h1, h2] at hz <;> omega
  | false =>
    by_cases h1 : ch = '"'
    · simp [scanStep, h1] at hz; omega
    · by_cases h2 : ch = '{'
      · simp [scanStep, h1, h2] at hz; omega
      · by_cases h3 : ch = '}'
        · exact ⟨rfl, h3, by simp [scanStep, h1, h2, h3] at hz; omega⟩
        · simp [scanStep, h1, h2, h3] at hz; omega

/-- The spec's depth counter moves by at most one per character. -/
theorem scanStep_fst_cases (d : Int) (i e : Bool) (ch : Char) :
    (scanStep (d, i, e) ch).1 = d ∨ (scanStep (d, i, e) ch).1 = d + 1 ∨
      (scanStep (d, i, e) ch).1 = d - 1 := by
  simp only [scanStep]
  split_ifs <;> simp

/-- If the depth was positive and did not reach zero, it is still
positive. -/
theorem scanStep_fst_pos (d : Int) (i e : Bool) (ch : Char) (hd : 1 ≤ d)
    (hz : ¬(scanStep (d, i, e) ch).1 = 0) : 1 ≤ (scanStep (d, i, e) ch).1 := by
  rcases scanStep_fst_cases d i e ch with h | h | h <;> omega

/-- One returning step of the scan loop: closing brace outside a string at
depth one. -/
theorem scanLoopF_step_return (f : Nat) (s : List Char) (k start : Nat) (e : Bool)
    (hlt : k < s.length) (hch : s[k] = '}') :
    scanLoopF (f + 1) s k start 1 false e =
      (some ((s.drop start).take (k + 1 - start)), k + 1) := by
  have h1 : ¬(s[k] = '"') := by rw [hch]; decide
  have h2 : ¬(s[k] = '{') := by rw [hch]; decide
  simp only [scanLoopF]
  rw [dif_pos hlt]
  simp [h1, h2, hch]

/-- One non-returning step of the scan loop advances one character and
updates the state by `scanStep`. -/
theorem scanLoopF_step_recurse (f : Nat) (s : List Char) (k start : Nat) (d : Int)
    (i e : Bool) (hlt : k < s.length)
    (hno : ¬(i = false ∧ s[k] = '}' ∧ d = 1)) :
    scanLoopF (f + 1) s k start d i e =
      scanLoopF f s (k + 1) start (scanStep (d, i, e) (s[k])).1
        (scanStep (d, i, e) (s[k])).2.1 (scanStep (d, i, e) (s[k])).2.2 := by
  simp only [scanLoopF]
  rw [dif_pos hlt]
  cases i with
  | true =>
    cases e with
    | true => simp [scanStep]
    | false =>
      by_cases h1 : s[k] = '\\'
      · simp [scanStep, h1]
      · by_cases h2 : s[k] = '"' <;> simp [scanStep, h1, h2]
  | false =>
    by_cases h1 : s[k] = '"'
    · simp [scanStep, h1]
    · by_cases h2 : s[k] = '{'
      · simp [scanStep, h1, h2]
      · by_cases h3 : s[k] = '}'
        · have hd1 : ¬(d = 1) := fun hdd => hno ⟨rfl, h3, hdd⟩
          have hz : ¬(d - 1 = 0) := by omega
          simp [scanStep, h1, h2, h3, hz]
        · simp [scanStep, h1, h2, h3]

/-- One successful probe of the matching-close search. -/
theorem firstZeroF_step_zero (f : Nat) (s : List Char) (k : Nat) (st : Int × Bool × Bool)
    (hlt : k < s.length) (hz : (scanStep st (s[k])).1 = 0) :
    firstZeroF (f + 1) s k st = some k := by
  simp only [firstZeroF]
  rw [dif_pos hlt, if_pos hz]

/-- One advancing probe of the matching-close search. -/
theorem firstZeroF_step_rec (f : Nat) (s : List Char) (k : Nat) (st : Int × Bool × Bool)
    (hlt : k < s.length) (hz : ¬(scanStep st (s[k])).1 = 0) :
    firstZeroF (f + 1) s k st = firstZeroF f s (k + 1) (scanStep st (s[k])) := by
  simp only [firstZeroF]
  rw [dif_pos hlt, if_neg hz]

/-- The scan loop of `stream_next_object`, started with positive depth, is
determined by the spec's matching-close search: it returns the slice
through the first position where the depth counter reaches zero together
with the offset just past it, and reports no fragment at end-of-input when
no such position exists. -/
theorem scanLoopF_eq_firstZero (s : List Char) (start : Nat) :
    ∀ (f k : Nat) (d : Int) (i e : Bool),
      1 ≤ d → k ≤ s.length → s.length ≤ k + f →
      scanLoopF f s k start d i e =
        (match firstZeroF f s k (d, i, e) with
         | some j => (some ((s.drop start).take (j + 1 - start)), j + 1)
         | none => (none, s.length)) := by
  intro f
  induction f with
  | zero =>
    intro k d i e hd hk hf
    have hke : k = s.length := by omega
    simp [scanLoopF, firstZeroF, hke]
  | succ f ih =>
    intro k d i e hd hk hf
    by_cases hlt : k < s.length
    · have hk1 : (k + 1 : Nat) ≤ s.length := hlt
      have hf1 : s.length ≤ (k + 1) + f := by omega
      by_cases hz : (scanStep (d, i, e) (s[k])).1 = 0
      · obtain ⟨hi, hch, hd1⟩ := scanStep_fst_zero d i e _ hd hz
        rw [firstZeroF_step_zero f s k _ hlt hz]
        subst hi hd1
        rw [scanLoopF_step_return f s k start e hlt hch]
      · have hno : ¬(i = false ∧ s[k] = '}' ∧ d = 1) := by
          rintro ⟨hi, hch, hd1⟩
          apply hz
          subst hi hd1
          have h1 : ¬(s[k] = '"') := by rw [hch]; decide
          have h2 : ¬(s[k] = '{') := by rw [hch]; decide
          simp [scanStep, h1, h2, hch]
        rw [firstZeroF_step_rec f s k _ hlt hz,
          scanLoopF_step_recurse f s k start d i e hlt hno]
        have hpos := scanStep_fst_pos d i e _ hd hz
        exact ih (k + 1) (scanStep (d, i, e) (s[k])).1
          (scanStep (d, i, e) (s[k])).2.1 (scanStep (d, i, e) (s[k])).2.2 hpos hk1 hf1
    · have hke : k = s.length := by omega
      simp only [scanLoopF, firstZeroF]
      rw [dif_neg hlt, dif_neg hlt]
      simp [hke]

/-- `stream_next_object`, characterized: skip the skip-set; a non-brace
next character (or end of input) yields no fragment at the skipped offset;
an opening brace yields the slice through its depth-matching close
together with the offset just past it, or no fragment at end-of-input when
no matching close exists. -/
theorem stream_next_object_eq (s : List Char) (idx : Nat) :
    stream_next_object s idx =
      (if h : skipIdx s idx < s.length then
        (if s[skipIdx s idx] = '{' then
          (match spec_matching_close s (skipIdx s idx) with
           | some j => (some ((s.drop (skipIdx s idx)).take (j + 1 - skipIdx s idx)), j + 1)
           | none => (none, s.length))
         else (none, skipIdx s idx))
       else (none, skipIdx s idx)) := by
  by_cases h : skipIdx s idx < s.length
  · rw [dif_pos h]
    by_cases hb : s[skipIdx s idx] = '{'
    · rw [if_pos hb]
      unfold stream_next_object
      rw [dif_pos h, if_pos hb]
      have h1 : ¬(s[skipIdx s idx] = '"') := by rw [hb]; decide
      have hstep : scanStep ((0 : Int), false, false) (s[skipIdx s idx]) = (1, false, false) := by
        simp [scanStep, h1, hb]
      have hz : ¬(scanStep ((0 : Int), false, false) (s[skipIdx s idx])).1 = 0 := by
        rw [hstep]; decide
      have hno : ¬(false = false ∧ s[skipIdx s idx] = '}' ∧ (0 : Int) = 1) := by
        rintro ⟨-, -, hdd⟩; omega
      rw [show (s.length + 1) = s.length + 1 from rfl]
      rw [scanLoopF_step_recurse s.length s (skipIdx s idx) (skipIdx s idx) 0 false false h hno]
      unfold spec_matching_close
      rw [firstZeroF_step_rec s.length s (skipIdx s idx) _ h hz, hstep]
      exact scanLoopF_eq_firstZero s (skipIdx s idx) s.length (skipIdx s idx + 1) 1 false false
        (by omega) (by omega) (by omega)
    · rw [if_neg hb]
      unfold stream_next_object
      rw [dif_pos h, if_neg hb]
  · rw [dif_neg h]
    unfold stream_next_object
    rw [dif_neg h]

/-- C1: for every input text and start offset where, after skipping
leading skip-set characters, the next character is an opening brace, the
scanner returns the substring from that brace through its depth-matching
close (per the spec's string-mode/escape/depth tracking, embodied in
`spec_matching_close`) inclusive, together with the offset just past it. -/
theorem stream_next_object_returns_matching (s : List Char) (idx j : Nat)
    (h : skipIdx s idx < s.length) (hb : s[skipIdx s idx] = '{')
    (hm : spec_matching_close s (skipIdx s idx) = some j) :
    stream_next_object s idx =
      (some ((s.drop (skipIdx s idx)).take (j + 1 - skipIdx s idx)), j + 1) := by
  rw [stream_next_object_eq s idx, dif_pos h, if_pos hb, hm]

/-- Witness for C1: scanning the fragment with nested braces inside a
string value returns the whole object (all 16 characters), not a truncated
prefix, with the offset just past it. -/
theorem stream_next_object_returns_matching_witness :
    stream_next_object exC1 0 = (some exC1, 16) := by
  have h : skipIdx exC1 0 < exC1.length := by decide
  have hb : getElem exC1 (skipIdx exC1 0) (by decide) = '{' := by decide
  have hmain := stream_next_object_returns_matching exC1 0 15 h hb (by decide)
  rw [hmain]
  rfl

/-- C2: the scanner's returned offset is never below the given offset,
strictly above it whenever a fragment is returned; when a scan starting at
an opening brace finds no matching close the offset is at end-of-input;
and the caller loop of `stream_parse_messages_from_container`, which
advances at least one character per iteration, performs at most
`length - idx` iterations. -/
theorem scanner_progress :
    (∀ (s : List Char) (idx : Nat), idx ≤ (stream_next_object s idx).2)
    ∧ (∀ (s : List Char) (idx : Nat) (frag : List Char),
        (stream_next_object s idx).1 = some frag → idx < (stream_next_object s idx).2)
    ∧ (∀ (s : List Char) (idx : Nat) (h : skipIdx s idx < s.length),
        s[skipIdx s idx] = '{' → (stream_next_object s idx).1 = none →
        (stream_next_object s idx).2 = s.length)
    ∧ (∀ (f : Nat) (after : List Char) (idx : Nat),
        msgLoopStepsF f after idx ≤ after.length - idx) := by
  have hskip : ∀ (s : List Char) (idx : Nat), idx ≤ skipIdx s idx :=
    fun s idx => skipClassF_ge _ (s.length + 1) s idx
  have hmatch : ∀ (s : List Char) (i j : Nat), spec_matching_close s i = some j → i ≤ j :=
    fun s i j hm => firstZeroF_ge (s.length + 1) s i (0, false, false) j hm
  refine ⟨?_, ?_, ?_, ?_⟩
  · intro s idx
    rw [stream_next_object_eq s idx]
    by_cases h : skipIdx s idx < s.length
    · rw [dif_pos h]
      by_cases hb : s[skipIdx s idx] = '{'
      · rw [if_pos hb]
        cases hm : spec_matching_close s (skipIdx s idx) with
        | some j =>
          have h1 := hskip s idx
          have h2 := hmatch s (skipIdx s idx) j hm
          simp only []
          omega
        | none =>
          have h1 := hskip s idx
          simp only []
          omega
      · rw [if_neg hb]
        exact hskip s idx
    · rw [dif_neg h]
      exact hskip s idx
  · intro s idx frag hfrag
    rw [stream_next_object_eq s idx] at hfrag ⊢
    by_cases h : skipIdx s idx < s.length
    · rw [dif_pos h] at hfrag ⊢
      by_cases hb : s[skipIdx s idx] = '{'
      · rw [if_pos hb] at hfrag ⊢
        cases hm : spec_matching_close s (skipIdx s idx) with
        | some j =>
          have h1 := hskip s idx
          have h2 := hmatch s (skipIdx s idx) j hm
          simp only [hm]
          omega
        | none => rw [hm] at hfrag; simp at hfrag
      · rw [if_neg hb] at hfrag; simp at hfrag
    · rw [dif_neg h] at hfrag; simp at hfrag
  · intro s idx h hb hnone
    rw [stream_next_object_eq s idx] at hnone ⊢
    rw [dif_pos h, if_pos hb] at hnone ⊢
    cases hm : spec_matching_close s (skipIdx s idx) with
    | some j => rw [hm] at hnone; simp at hnone
    | none => rfl
  · intro f
    induction f with
    | zero => intro after idx; simp [msgLoopStepsF]
    | succ f ih =>
      intro after idx
      simp only [msgLoopStepsF]
      by_cases hil : idx < after.length
      · rw [if_pos hil]
        rcases h2 : stream_next_object after idx with ⟨o, idx2⟩
        cases o with
        | none =>
          have := ih after (idx + 1)
          simp only []
          omega
        | some oo =>
          by_cases he : oo.isEmpty
          · have := ih after (idx + 1)
            simp only [he, if_true]
            omega
          · simp only [he, if_false, Bool.false_eq_true]
            by_cases hgt : idx2 > idx
            · have := ih after idx2
              rw [if_pos hgt]
              omega
            · have := ih after (idx + 1)
              rw [if_neg hgt]
              omega
      · rw [if_neg hil]
        omega

/-- Witness for C2: progress on a never-closed fragment, strict progress
on a returned fragment, end-of-input offset on exhaustion, and the
iteration bound on a fragment-free text. -/
theorem scanner_progress_witness :
    (0 : Nat) ≤ (stream_next_object exBrace 0).2
    ∧ (0 : Nat) < (stream_next_object exPair 0).2
    ∧ (stream_next_object exBrace 0).2 = exBrace.length
    ∧ msgLoopStepsF 3 exAB 0 ≤ exAB.length - 0 := by
  refine ⟨scanner_progress.1 exBrace 0, ?_, ?_, scanner_progress.2.2.2 3 exAB 0⟩
  · exact scanner_progress.2.1 exPair 0 exPair (by rfl)
  · exact scanner_progress.2.2.1 exBrace 0 (by decide) (by decide) (by rfl)

/-- C3: in a conversation's messages region holding two balanced message
objects separated by non-brace garbage (the spec's `GARBAGE` example), the
extraction recovers and decodes both messages 1 and 2; and when the
interposed span is balanced but undecodable (`\x7bbad\x7d`), it is
silently dropped, scanning resumes after it, and both messages are still
recovered — no failure escapes the loop, which is total by construction. -/
theorem tolerant_recovery :
    stream_parse_messages_from_container exC3 = [msgHi, msgBye]
    ∧ stream_parse_messages_from_container exC3bad = [msgHi, msgBye] :=
  ⟨rfl, rfl⟩

/-- Every emitted row originates from a listed message that passed the
type and author filters and produced exactly that row. -/
theorem collect_rows_loop_mem (id_index : List (Int × JObj)) (chat_name : List Char)
    (w uqr : Option (List Char)) (uq : List Char) (ex : Bool) :
    ∀ (msgs : List JObj) (rows : List OutputRow) (r : OutputRow),
      collect_rows_loop id_index chat_name w uqr uq ex msgs = Except.ok rows →
      r ∈ rows →
      ∃ m, m ∈ msgs ∧ jGetPy m kType = some (JValue.jstr kMessage)
        ∧ author_pass w uqr uq ex m = true
        ∧ row_for id_index chat_name m = Except.ok (some r) := by
  intro msgs
  induction msgs with
  | nil =>
    intro rows r hok hr
    simp only [collect_rows_loop, Except.ok.injEq] at hok
    subst hok
    simp at hr
  | cons m rest ih =>
    intro rows r hok hr
    have step : ∀ hok2 : collect_rows_loop id_index chat_name w uqr uq ex rest = Except.ok rows,
        ∃ m', m' ∈ m :: rest ∧ jGetPy m' kType = some (JValue.jstr kMessage)
          ∧ author_pass w uqr uq ex m' = true
          ∧ row_for id_index chat_name m' = Except.ok (some r) := by
      intro hok2
      obtain ⟨m', h1, h2, h3, h4⟩ := ih rows r hok2 hr
      exact ⟨m', List.mem_cons_of_mem _ h1, h2, h3, h4⟩
    rcases hty : jGetPy m kType with _ | v
    · simp only [collect_rows_loop, hty] at hok
      exact step hok
    · cases v with
      | jstr t =>
        by_cases ht : t = kMessage
        · subst ht
          by_cases hap : author_pass w uqr uq ex m
          · rcases hrf : row_for id_index chat_name m with e | orow
            · simp only [collect_rows_loop, hty, if_pos rfl, hap, if_true, hrf] at hok
              simp at hok
            · cases orow with
              | none =>
                simp only [collect_rows_loop, hty, if_pos rfl, hap, if_true, hrf] at hok
                exact step hok
              | some r0 =>
                rcases hrec : collect_rows_loop id_index chat_name w uqr uq ex rest with e | rows'
                · simp only [collect_rows_loop, hty, if_pos rfl, hap, if_true, hrf, hrec] at hok
                  simp at hok
                · simp only [collect_rows_loop, hty, if_pos rfl, hap, if_true, hrf, hrec,
                    Except.ok.injEq] at hok
                  subst hok
                  rcases List.mem_cons.mp hr with hr0 | hr1
                  · subst hr0
                    exact ⟨m, List.mem_cons_self m rest, hty, hap, hrf⟩
                  · obtain ⟨m', h1, h2, h3, h4⟩ := ih rows' r hrec hr1
                    exact ⟨m', List.mem_cons_of_mem _ h1, h2, h3, h4⟩
          · simp only [collect_rows_loop, hty, if_pos rfl, hap, if_false] at hok
            exact step (by simpa using hok)
        · simp only [collect_rows_loop, hty, if_neg ht] at hok
          exact step hok
      | jnull => simp only [collect_rows_loop, hty] at hok; exact step hok
      | jbool b => simp only [collect_rows_loop, hty] at hok; exact step hok
      | jint n => simp only [collect_rows_loop, hty] at hok; exact step hok
      | jarr xs => simp only [collect_rows_loop, hty] at hok; exact step hok
      | jobj fobj => simp only [collect_rows_loop, hty] at hok; exact step hok

/-- Field contents of an emitted row: chat name, identity fields, the
flattened trimmed (nonempty) text, and the raw reply reference. -/
theorem row_for_fields (id_index : List (Int × JObj)) (chat_name : List Char)
    (m : JObj) (r : OutputRow) (h : row_for id_index chat_name m = Except.ok (some r)) :
    r.chat = chat_name ∧ r.from_ = norm_sender m ∧ r.from_id = norm_from_id m
      ∧ r.id = jGetPy m kId ∧ r.date = jGetPy m kDate ∧ r.reply_to_id = jGetPy m kReplyTo
      ∧ r.text ≠ [] ∧ ∃ t0, extract_text m = some t0 ∧ r.text = pyStrip t0 := by
  rcases hext : extract_text m with _ | t0
  · simp [row_for, hext] at h
  · by_cases hemp : (pyStrip t0).isEmpty
    · simp [row_for, hext, hemp] at h
    · rcases hrv : jGetPy m kReplyTo with _ | rv
      · simp only [row_for, hext, hemp, if_false, hrv, Bool.false_eq_true, Except.ok.injEq,
          Option.some.injEq] at h
        subst h
        refine ⟨rfl, rfl, rfl, rfl, rfl, rfl, ?_, t0, rfl, rfl⟩
        simpa using hemp
      · rcases hint : pyInt rv with _ | n
        · simp only [row_for, hext, hemp, if_false, hrv, hint, Bool.false_eq_true,
            Except.ok.injEq, Option.some.injEq] at h
          subst h
          refine ⟨rfl, rfl, rfl, rfl, rfl, rfl, ?_, t0, rfl, rfl⟩
          simpa using hemp
        · rcases hget : dictGetI id_index n with _ | rm
          · simp only [row_for, hext, hemp, if_false, hrv, hint, hget, Bool.false_eq_true,
              Except.ok.injEq, Option.some.injEq] at h
            subst h
            refine ⟨rfl, rfl, rfl, rfl, rfl, rfl, ?_, t0, rfl, rfl⟩
            simpa using hemp
          · by_cases hrm : rm.isEmpty
            · simp only [row_for, hext, hemp, if_false, hrv, hint, hget, hrm, if_true,
                Bool.false_eq_true, Except.ok.injEq, Option.some.injEq] at h
              subst h
              refine ⟨rfl, rfl, rfl, rfl, rfl, rfl, ?_, t0, rfl, rfl⟩
              simpa using hemp
            · rcases hrt : extract_text rm with _ | rt0
              · simp [row_for, hext, hemp, hrv, hint, hget, hrm, hrt] at h
              · simp only [row_for, hext, hemp, if_false, hrv, hint, hget, hrm, hrt,
                  Bool.false_eq_true, Except.ok.injEq, Option.some.injEq] at h
                subst h
                refine ⟨rfl, rfl, rfl, rfl, rfl, rfl, ?_, t0, rfl, rfl⟩
                simpa using hemp

/-- Reply-field contents of an emitted row carrying a reply reference:
resolved from the index entry when the reference converts to an integer
that is indexed (by a nonempty record), empty strings otherwise. -/
theorem row_for_reply (id_index : List (Int × JObj)) (chat_name : List Char)
    (m : JObj) (r : OutputRow) (rv : JValue)
    (h : row_for id_index chat_name m = Except.ok (some r))
    (hrv : jGetPy m kReplyTo = some rv) :
    (pyInt rv = none → r.reply_from = [] ∧ r.reply_date = JValue.jstr [] ∧ r.reply_text = [])
    ∧ (∀ n : Int, pyInt rv = some n → dictGetI id_index n = none →
        r.reply_from = [] ∧ r.reply_date = JValue.jstr [] ∧ r.reply_text = [])
    ∧ (∀ (n : Int) (rm : JObj), pyInt rv = some n → dictGetI id_index n = some rm → rm ≠ [] →
        r.reply_from = norm_sender rm
          ∧ r.reply_date = jOrOpt (jGetPy rm kDate) (JValue.jstr [])
          ∧ ∃ rt, extract_text rm = some rt ∧ r.reply_text = pyStrip rt) := by
  rcases hext : extract_text m with _ | t0
  · simp [row_for, hext] at h
  · by_cases hemp : (pyStrip t0).isEmpty
    · simp [row_for, hext, hemp] at h
    · refine ⟨?_, ?_, ?_⟩
      · intro hint
        simp only [row_for, hext, hemp, if_false, hrv, hint, Bool.false_eq_true,
          Except.ok.injEq, Option.some.injEq] at h
        subst h
        exact ⟨rfl, rfl, rfl⟩
      · intro n hint hget
        simp only [row_for, hext, hemp, if_false, hrv, hint, hget, Bool.false_eq_true,
          Except.ok.injEq, Option.some.injEq] at h
        subst h
        exact ⟨rfl, rfl, rfl⟩
      · intro n rm hint hget hne
        have hrm : ¬rm.isEmpty := by simpa using hne
        rcases hrt : extract_text rm with _ | rt0
        · simp [row_for, hext, hemp, hrv, hint, hget, hrm, hrt] at h
        · simp only [row_for, hext, hemp, if_false, hrv, hint, hget, hrm, hrt,
            Bool.false_eq_true, Except.ok.injEq, Option.some.injEq] at h
          subst h
          exact ⟨rfl, rfl, rt0, rfl, rfl⟩

/-- Lookup after a Python-dict insert. -/
theorem dictGetI_insert (k : Int) (v : JObj) (k' : Int) :
    ∀ d : List (Int × JObj),
      dictGetI (dictInsertI d k v) k' = if k = k' then some v else dictGetI d k' := by
  intro d
  induction d with
  | nil => by_cases h : k = k' <;> simp [dictInsertI, dictGetI, h]
  | cons p rest ih =>
    rcases p with ⟨k2, v2⟩
    by_cases h2 : k2 = k
    · subst h2
      by_cases h : k2 = k' <;> simp [dictInsertI, dictGetI, h]
    · by_cases h3 : k2 = k'
      · subst h3
        have : ¬(k = k2) := fun he => h2 he.symm
        simp [dictInsertI, dictGetI, h2, this]
      · simp [dictInsertI, dictGetI, h2, h3, ih]

/-- The id index built over an accumulator: lookup finds the last
qualifying record, else falls back to the accumulator. -/
theorem build_id_index_aux_get (N : Int) :
    ∀ (msgs : List JObj) (acc : List (Int × JObj)),
      dictGetI (build_id_index_aux acc msgs) N =
        (match lastQualified msgs N with
         | some m => some m
         | none => dictGetI acc N) := by
  intro msgs
  induction msgs with
  | nil => intro acc; simp [build_id_index_aux, lastQualified]
  | cons m rest ih =>
    intro acc
    rcases hty : jGetPy m kType with _ | v
    · have hq : isQualified N m = false := by simp [isQualified, hty]
      have hstep : build_id_index_aux acc (m :: rest) = build_id_index_aux acc rest := by
        simp only [build_id_index_aux, hty]
      rw [hstep, ih]
      cases hrest : lastQualified rest N with
      | some rr => simp [lastQualified, hrest]
      | none => simp [lastQualified, hrest, hq]
    · cases v with
      | jstr t =>
        by_cases ht : t = kMessage
        · subst ht
          rcases hid : jGetPy m kId with _ | iv
          · have hq : isQualified N m = false := by simp [isQualified, hty, hid]
            have hstep : build_id_index_aux acc (m :: rest) = build_id_index_aux acc rest := by
              simp only [build_id_index_aux, hty, hid]
              simp
            rw [hstep, ih]
            cases hrest : lastQualified rest N with
            | some rr => simp [lastQualified, hrest]
            | none => simp [lastQualified, hrest, hq]
          · rcases hint : pyInt iv with _ | mid
            · have hq : isQualified N m = false := by simp [isQualified, hty, hid, hint]
              have hstep : build_id_index_aux acc (m :: rest) = build_id_index_aux acc rest := by
                simp only [build_id_index_aux, hty, hid, hint]
                simp
              rw [hstep, ih]
              cases hrest : lastQualified rest N with
              | some rr => simp [lastQualified, hrest]
              | none => simp [lastQualified, hrest, hq]
            · have hq : isQualified N m = decide (mid = N) := by
                simp [isQualified, hty, hid, hint]
              have hstep : build_id_index_aux acc (m :: rest) =
                  build_id_index_aux (dictInsertI acc mid m) rest := by
                simp only [build_id_index_aux, hty, hid, hint]
                simp
              rw [hstep, ih]
              cases hrest : lastQualified rest N with
              | some rr => simp [lastQualified, hrest]
              | none =>
                by_cases hmid : mid = N
                · subst hmid
                  simp [lastQualified, hrest, hq, dictGetI_insert]
                · simp [lastQualified, hrest, hq, hmid, dictGetI_insert]
        · have hq : isQualified N m = false := by simp [isQualified, hty, ht]
          have hstep : build_id_index_aux acc (m :: rest) = build_id_index_aux acc rest := by
            simp only [build_id_index_aux, hty]
            simp [ht]
          rw [hstep, ih]
          cases hrest : lastQualified rest N with
          | some rr => simp [lastQualified, hrest]
          | none => simp [lastQualified, hrest, hq]
      | jnull =>
        have hq : isQualified N m = false := by simp [isQualified, hty]
        have hstep : build_id_index_aux acc (m :: rest) = build_id_index_aux acc rest := by
          simp only [build_id_index_aux, hty]
        rw [hstep, ih]
        cases hrest : lastQualified rest N with
        | some rr => simp [lastQualified, hrest]
        | none => simp [lastQualified, hrest, hq]
      | jbool b =>
        have hq : isQualified N m = false := by simp [isQualified, hty]
        have hstep : build_id_index_aux acc (m :: rest) = build_id_index_aux acc rest := by
          simp only [build_id_index_aux, hty]
        rw [hstep, ih]
        cases hrest : lastQualified rest N with
        | some rr => simp [lastQualified, hrest]
        | none => simp [lastQualified, hrest, hq]
      | jint n =>
        have hq : isQualified N m = false := by simp [isQualified, hty]
        have hstep : build_id_index_aux acc (m :: rest) = build_id_index_aux acc rest := by
          simp only [build_id_index_aux, hty]
        rw [hstep, ih]
        cases hrest : lastQualified rest N with
        | some rr => simp [lastQualified, hrest]
        | none => simp [lastQualified, hrest, hq]
      | jarr xs =>
        have hq : isQualified N m = false := by simp [isQualified, hty]
        have hstep : build_id_index_aux acc (m :: rest) = build_id_index_aux acc rest := by
          simp only [build_id_index_aux, hty]
        rw [hstep, ih]
        cases hrest : lastQualified rest N with
        | some rr => simp [lastQualified, hrest]
        | none => simp [lastQualified, hrest, hq]
      | jobj fobj =>
        have hq : isQualified N m = false := by simp [isQualified, hty]
        have hstep : build_id_index_aux acc (m :: rest) = build_id_index_aux acc rest := by
          simp only [build_id_index_aux, hty]
        rw [hstep, ih]
        cases hrest : lastQualified rest N with
        | some rr => simp [lastQualified, hrest]
        | none => simp [lastQualified, hrest, hq]

/-- Index lookup is exactly the last qualifying record in scan order. -/
theorem build_id_index_get (msgs : List JObj) (N : Int) :
    dictGetI (build_id_index msgs) N = lastQualified msgs N := by
  rw [build_id_index, build_id_index_aux_get]
  cases lastQualified msgs N <;> simp [dictGetI]

/-- A key is indexed exactly when some listed record qualifies for it. -/
theorem lastQualified_isSome (N : Int) :
    ∀ msgs : List JObj,
      (lastQualified msgs N).isSome = true ↔ ∃ m, m ∈ msgs ∧ isQualified N m = true := by
  intro msgs
  induction msgs with
  | nil =>
    constructor
    · intro h; simp [lastQualified] at h
    · rintro ⟨m, hm, -⟩; simp at hm
  | cons m rest ih =>
    cases hrest : lastQualified rest N with
    | some rr =>
      have hsome : (lastQualified (m :: rest) N).isSome = true := by
        rw [lastQualified, hrest]; rfl
      rw [hsome]
      have hex : ∃ m', m' ∈ rest ∧ isQualified N m' = true := by
        rw [← ih, hrest]; rfl
      obtain ⟨m', h1, h2⟩ := hex
      exact ⟨fun _ => ⟨m', List.mem_cons_of_mem _ h1, h2⟩, fun _ => rfl⟩
    | none =>
      by_cases hq : isQualified N m
      · have hsome : (lastQualified (m :: rest) N).isSome = true := by
          rw [lastQualified, hrest]
          simp [hq]
        rw [hsome]
        exact ⟨fun _ => ⟨m, List.mem_cons_self m rest, hq⟩, fun _ => rfl⟩
      · have hnone : lastQualified (m :: rest) N = none := by
          rw [lastQualified, hrest]
          simp [hq]
        rw [hnone]
        constructor
        · intro hcon; simp at hcon
        · rintro ⟨m', h1, h2⟩
          rcases List.mem_cons.mp h1 with h0 | h0
          · subst h0; exact absurd h2 (by simpa using hq)
          · have hx := ih.mpr ⟨m', h0, h2⟩
            rw [hrest] at hx
            simp at hx

/-- The indexed record is a listed, qualifying record. -/
theorem lastQualified_spec (N : Int) :
    ∀ (msgs : List JObj) (mm : JObj),
      lastQualified msgs N = some mm → mm ∈ msgs ∧ isQualified N mm = true := by
  intro msgs
  induction msgs with
  | nil => intro mm h; simp [lastQualified] at h
  | cons m0 rest ih =>
    intro mm h
    cases hrest : lastQualified rest N with
    | some rr =>
      rw [lastQualified, hrest] at h
      injection h with h
      subst h
      obtain ⟨h1, h2⟩ := ih _ hrest
      exact ⟨List.mem_cons_of_mem _ h1, h2⟩
    | none =>
      rw [lastQualified, hrest] at h
      by_cases hq : isQualified N m0
      · rw [if_pos hq] at h
        injection h with h
        subst h
        exact ⟨List.mem_cons_self m0 rest, hq⟩
      · rw [if_neg hq] at h
        exact absurd h (by simp)

/-- A qualifying record is a nonempty object (it has a `type` field). -/
theorem isQualified_ne_nil (N : Int) (m : JObj) (h : isQualified N m = true) : m ≠ [] := by
  intro he
  subst he
  simp [isQualified, jGetPy] at h

/-- C4: an emitted row carrying a reply reference resolves it through the
conversation's id index: a record of type `message` with that integer id is
indexed exactly when one was decoded (last occurrence winning), and the
row's reply author/date/text are that record's normalized sender, its
date (`""` when falsy), and its flattened trimmed text; when the reference
does not resolve, the reply fields are all empty while reply_to_id keeps
the referenced value. -/
theorem rows_reply_resolution (msgs : List JObj) (chat : List Char)
    (uid : Option Int) (uqr : Option (List Char)) (ex : Bool)
    (rows : List OutputRow) (r : OutputRow) (rv : JValue)
    (hok : collect_rows_from_messages msgs chat uid uqr ex = Except.ok rows)
    (hr : r ∈ rows) (hrv : r.reply_to_id = some rv) :
    (∀ N : Int, pyInt rv = some N →
       (((lastQualified msgs N).isSome = true) ↔ ∃ m, m ∈ msgs ∧ isQualified N m = true))
    ∧ (pyInt rv = none → r.reply_from = [] ∧ r.reply_date = JValue.jstr [] ∧ r.reply_text = [])
    ∧ (∀ N : Int, pyInt rv = some N → lastQualified msgs N = none →
        r.reply_from = [] ∧ r.reply_date = JValue.jstr [] ∧ r.reply_text = [])
    ∧ (∀ (N : Int) (rm : JObj), pyInt rv = some N → lastQualified msgs N = some rm →
        r.reply_from = norm_sender rm
          ∧ r.reply_date = jOrOpt (jGetPy rm kDate) (JValue.jstr [])
          ∧ ∃ rt, extract_text rm = some rt ∧ r.reply_text = pyStrip rt) := by
  have hloop : collect_rows_loop (build_id_index msgs) chat (want_user_id_string uid) uqr
      (if pyTruthyOptStr uqr then pyLowerStr (uqr.getD []) else []) ex msgs =
      Except.ok rows := hok
  obtain ⟨m, hm, hty, hap, hrfor⟩ :=
    collect_rows_loop_mem (build_id_index msgs) chat (want_user_id_string uid) uqr
      (if pyTruthyOptStr uqr then pyLowerStr (uqr.getD []) else []) ex msgs rows r hloop hr
  obtain ⟨-, -, -, -, -, hrid, -, -⟩ := row_for_fields (build_id_index msgs) chat m r hrfor
  have hmrv : jGetPy m kReplyTo = some rv := by rw [← hrid, hrv]
  obtain ⟨hnone, hmiss, hfound⟩ := row_for_reply (build_id_index msgs) chat m r rv hrfor hmrv
  refine ⟨fun N _ => lastQualified_isSome N msgs, hnone, ?_, ?_⟩
  · intro N hN hlq
    exact hmiss N hN (by rw [build_id_index_get]; exact hlq)
  · intro N rm hN hlq
    have hget : dictGetI (build_id_index msgs) N = some rm := by
      rw [build_id_index_get]; exact hlq
    have hne : rm ≠ [] := isQualified_ne_nil N rm (lastQualified_spec N msgs rm hlq).2
    exact hfound N rm hN hget hne

/-- Witness for C4: in the two-message conversation, the row for the
message replying to id 5 carries the referenced message's sender and its
text `original`. -/
theorem rows_reply_resolution_witness :
    row6.reply_from = ("Bob").toList ∧ row6.reply_text = ("original").toList := by
  have h := rows_reply_resolution msgs4 chatC none (some []) false [row5, row6] row6
    (JValue.jint 5) (by rfl) (by simp) (by rfl)
  obtain ⟨-, -, -, hfound⟩ := h
  obtain ⟨h1, -, rt, hrt, hrtx⟩ := hfound 5 msgOrig (by rfl) (by rfl)
  have h2 : extract_text msgOrig = some (("original").toList) := rfl
  rw [h2] at hrt
  injection hrt with hrt
  subst hrt
  exact ⟨h1.trans (by rfl), hrtx.trans (by rfl)⟩

/-- With a truthy author-id string the author filter and hence the whole
loop are independent of the name query and the exact flag. -/
theorem collect_rows_loop_query_independent (id_index : List (Int × JObj)) (chat : List Char)
    (wopt : Option (List Char)) (uqr1 : Option (List Char)) (uq1 : List Char) (ex1 : Bool)
    (uqr2 : Option (List Char)) (uq2 : List Char) (ex2 : Bool)
    (hw : pyTruthyOptStr wopt = true) :
    ∀ msgs : List JObj,
      collect_rows_loop id_index chat wopt uqr1 uq1 ex1 msgs
        = collect_rows_loop id_index chat wopt uqr2 uq2 ex2 msgs := by
  intro msgs
  induction msgs with
  | nil => rfl
  | cons m rest ih =>
    have hap : author_pass wopt uqr1 uq1 ex1 m = author_pass wopt uqr2 uq2 ex2 m := by
      simp [author_pass, hw]
    rcases hty : jGetPy m kType with _ | v
    · simp only [collect_rows_loop, hty]
      exact ih
    · cases v with
      | jstr t =>
        by_cases ht : t = kMessage
        · subst ht
          by_cases hap1 : author_pass wopt uqr1 uq1 ex1 m
          · have hap2 : author_pass wopt uqr2 uq2 ex2 m = true := by rw [← hap]; exact hap1
            simp only [collect_rows_loop, hty, if_pos rfl, hap1, hap2, if_true]
            rcases hrf : row_for id_index chat m with e | orow
            · rfl
            · cases orow with
              | none => exact ih
              | some r0 => rw [ih]
          · have hap2 : ¬(author_pass wopt uqr2 uq2 ex2 m = true) := by rw [← hap]; exact hap1
            simp only [collect_rows_loop, hty, if_pos rfl, hap1, hap2, if_false]
            exact ih
        · simp only [collect_rows_loop, hty, if_neg ht]
          exact ih
      | jnull => simp only [collect_rows_loop, hty]; exact ih
      | jbool b => simp only [collect_rows_loop, hty]; exact ih
      | jint n => simp only [collect_rows_loop, hty]; exact ih
      | jarr xs => simp only [collect_rows_loop, hty]; exact ih
      | jobj fobj => simp only [collect_rows_loop, hty]; exact ih

/-- C5: with a requested numeric author id `U`, every emitted row's
`from_id` string is exactly the literal prefix `user` followed by the
decimal digits of `U`; and the outcome is entirely independent of any
simultaneously supplied name fragment or exact flag — the sender name is
never consulted. -/
theorem rows_author_id_filter :
    (∀ (msgs : List JObj) (chat : List Char) (U : Int) (uqr : Option (List Char)) (ex : Bool)
       (rows : List OutputRow) (r : OutputRow),
       collect_rows_from_messages msgs chat (some U) uqr ex = Except.ok rows → r ∈ rows →
       r.from_id = kUser ++ (toString U).toList)
    ∧ (∀ (msgs : List JObj) (chat : List Char) (U : Int)
         (uqr1 : Option (List Char)) (ex1 : Bool) (uqr2 : Option (List Char)) (ex2 : Bool),
         collect_rows_from_messages msgs chat (some U) uqr1 ex1 =
           collect_rows_from_messages msgs chat (some U) uqr2 ex2) := by
  have htr : ∀ U : Int, pyTruthyOptStr (want_user_id_string (some U)) = true := by
    intro U
    simp [want_user_id_string, pyTruthyOptStr, kUser]
  constructor
  · intro msgs chat U uqr ex rows r hok hr
    have hloop : collect_rows_loop (build_id_index msgs) chat (want_user_id_string (some U)) uqr
        (if pyTruthyOptStr uqr then pyLowerStr (uqr.getD []) else []) ex msgs =
        Except.ok rows := hok
    obtain ⟨m, hm, hty, hap, hrfor⟩ :=
      collect_rows_loop_mem (build_id_index msgs) chat (want_user_id_string (some U)) uqr
        (if pyTruthyOptStr uqr then pyLowerStr (uqr.getD []) else []) ex msgs rows r hloop hr
    obtain ⟨-, -, hfid, -⟩ := row_for_fields (build_id_index msgs) chat m r hrfor
    have heq : norm_from_id m = kUser ++ (toString U).toList := by
      have htr2 : pyTruthyOptStr (some (kUser ++ (toString U).toList)) = true := htr U
      simp only [author_pass, want_user_id_string, htr2, if_true, Option.getD,
        decide_eq_true_eq] at hap
      exact hap
    rw [hfid, heq]
  · intro msgs chat U uqr1 ex1 uqr2 ex2
    exact collect_rows_loop_query_independent (build_id_index msgs) chat
      (want_user_id_string (some U)) uqr1 _ ex1 uqr2 _ ex2 (htr U) msgs

/-- Witness for C5: requesting author id 305696040 emits the message whose
`from_id` is `user305696040`, with that exact string in the row, and the
result is unchanged when a name fragment and the exact flag are supplied
alongside. -/
theorem rows_author_id_filter_witness :
    (⟨chatC, none, none, ("user305696040").toList, ("user305696040").toList,
      ("hi").toList, none, [], JValue.jstr [], []⟩ : OutputRow).from_id =
        kUser ++ (toString (305696040 : Int)).toList
    ∧ collect_rows_from_messages [msgU] chatC (some 305696040) (some (("Bob").toList)) true =
        collect_rows_from_messages [msgU] chatC (some 305696040) none false := by
  constructor
  · exact rows_author_id_filter.1 [msgU] chatC 305696040 none false
      [⟨chatC, none, none, ("user305696040").toList, ("user305696040").toList,
        ("hi").toList, none, [], JValue.jstr [], []⟩]
      ⟨chatC, none, none, ("user305696040").toList, ("user305696040").toList,
        ("hi").toList, none, [], JValue.jstr [], []⟩
      rfl (List.mem_singleton.mpr rfl)
  · exact rows_author_id_filter.2 [msgU] chatC 305696040 (some (("Bob").toList)) true none false

/-- C9: every emitted row's text is the message's flattened, trimmed text
and is nonempty; the flattening concatenates plain-string elements and
dict elements' `text` properties in order with no separators (the spec's
mixed-sequence example evaluates to `see here now`); and a message whose
flattened text trims to empty is never emitted even though it passes the
author filter. -/
theorem rows_text_nonempty :
    (∀ (msgs : List JObj) (chat : List Char) (uid : Option Int) (uqr : Option (List Char))
       (ex : Bool) (rows : List OutputRow) (r : OutputRow),
       collect_rows_from_messages msgs chat uid uqr ex = Except.ok rows → r ∈ rows →
       r.text ≠ [] ∧ ∃ m, m ∈ msgs ∧ ∃ t0, extract_text m = some t0 ∧ r.text = pyStrip t0)
    ∧ extract_text exFlattenMsg = some (("see here now").toList)
    ∧ collect_rows_from_messages [msgEmptyText] chatC none (some []) false = Except.ok [] := by
  refine ⟨?_, rfl, rfl⟩
  intro msgs chat uid uqr ex rows r hok hr
  have hloop : collect_rows_loop (build_id_index msgs) chat (want_user_id_string uid) uqr
      (if pyTruthyOptStr uqr then pyLowerStr (uqr.getD []) else []) ex msgs =
      Except.ok rows := hok
  obtain ⟨m, hm, -, -, hrfor⟩ :=
    collect_rows_loop_mem (build_id_index msgs) chat (want_user_id_string uid) uqr
      (if pyTruthyOptStr uqr then pyLowerStr (uqr.getD []) else []) ex msgs rows r hloop hr
  obtain ⟨-, -, -, -, -, -, hne, t0, ht0, htx⟩ :=
    row_for_fields (build_id_index msgs) chat m r hrfor
  exact ⟨hne, m, hm, t0, ht0, htx⟩

/-- Witness for C9: the first row of the two-message conversation has
nonempty text. -/
theorem rows_text_nonempty_witness : row5.text ≠ [] :=
  (rows_text_nonempty.1 msgs4 chatC none (some []) false [row5, row6] row5 rfl
    (by simp)).1

/-- Counterexample to C6 as stated: the lowercased Latin fragment `tan` is
not a substring of the normalized, lowercased form of the Cyrillic sender
`Татьяна` (lowercasing does not transliterate), so a message from that
sender with nonempty text yields no row for the non-exact query `tan`. -/
theorem author_name_tan_counterexample :
    strContains (pyLowerStr (u_norm tatName)) (("tan").toList) = false
    ∧ collect_rows_from_messages [msgTat] chatC none (some (("tan").toList)) false =
        Except.ok [] :=
  ⟨rfl, rfl⟩

/-- C6 amended: in non-exact mode a message matches exactly when the
lowercased requested fragment is a substring of the normalized, lowercased
sender name (so the Cyrillic fragment `тать` matches `Татьяна`, while the
Latin `tan` does not); exact mode requires full equality between the
normalized sender name and the requested name. -/
theorem author_name_substring_rule :
    (∀ (q : List Char) (msg : JObj),
       author_pass none (some q) (if pyTruthyOptStr (some q) then pyLowerStr q else []) false msg
         = strContains (pyLowerStr (norm_sender msg)) (pyLowerStr q))
    ∧ (∀ (q : List Char) (msg : JObj),
       author_pass none (some q) (if pyTruthyOptStr (some q) then pyLowerStr q else []) true msg
         = decide (norm_sender msg = q))
    ∧ author_pass none (some (("тать").toList))
        (if pyTruthyOptStr (some (("тать").toList)) then pyLowerStr (("тать").toList) else [])
        false msgTat = true := by
  refine ⟨?_, ?_, rfl⟩
  · intro q msg
    cases q with
    | nil => simp [author_pass, pyTruthyOptStr, pyLowerStr]
    | cons c cs => simp [author_pass, pyTruthyOptStr]
  · intro q msg
    simp [author_pass, pyTruthyOptStr]

/-- C7: with neither a conversation id nor a name query, the selector
returns the first discovered conversation whose name does not match the
self-notes pattern, and when every discovered conversation matches it, the
very first one. -/
theorem pick_default_skips_saved (raw : List Char) (c0 : ChatEntry) (rest : List ChatEntry)
    (h : list_all_chats raw 10000 = c0 :: rest) :
    pick_chat_container raw none none =
      Except.ok (match (c0 :: rest).find? (fun c => !is_saved_chat c.name) with
        | some c => (c.container, c.name)
        | none => (c0.container, c0.name)) := by
  unfold pick_chat_container
  rw [h]
  simp only [pyTruthyOptStr, Bool.false_eq_true, if_false]
  cases hfind : (c0 :: rest).find? (fun c => !is_saved_chat c.name) <;> rfl

/-- Witness for C7: for the discovered list `[Saved Messages, Alice]` the
default selection is `Alice`'s container, not `Saved Messages`. -/
theorem pick_default_skips_saved_witness :
    pick_chat_container rawSA none none =
      Except.ok (aliceEntry.container, ("Alice").toList) := by
  have h := pick_default_skips_saved rawSA savedEntry [aliceEntry] (by rfl)
  rw [h]
  rfl

/-- C8: when the conversation-list marker is absent and the unwrapped scan
finds nothing, discovery returns exactly one conversation: the entire
input, with the id textually extracted from it if present and the name
defaulting to the generic placeholder; in particular the result is never
empty in unwrapped mode. -/
theorem unwrapped_fallback_single (raw : List Char)
    (h1 : find_chats_list_start raw = none)
    (h2 : listChatsLoopF (raw.length + 1) raw 0 0 10000 [] = []) :
    list_all_chats raw 10000 =
      [⟨raw, chat_id_from_obj_str raw, pyOrStr (chat_name_from_obj_str raw) kSingleChat⟩]
    ∧ list_all_chats raw 10000 ≠ [] := by
  have hl : list_all_chats raw 10000 =
      [⟨raw, chat_id_from_obj_str raw, pyOrStr (chat_name_from_obj_str raw) kSingleChat⟩] := by
    simp only [list_all_chats, h1, h2]
    rfl
  exact ⟨hl, by rw [hl]; simp⟩

/-- Witness for C8: an input with no marker and no balanced fragment
becomes a single whole-input conversation with the placeholder name. -/
theorem unwrapped_fallback_single_witness :
    list_all_chats rawX 10000 =
      [⟨rawX, chat_id_from_obj_str rawX, pyOrStr (chat_name_from_obj_str rawX) kSingleChat⟩]
    ∧ list_all_chats rawX 10000 ≠ [] :=
  unwrapped_fallback_single rawX rfl rfl

/-- C10: when the conversation-list marker is present but no scanned
fragment contains a message-collection marker, discovery returns the empty
list (the whole-input fallback applies only to unwrapped mode), and
single-conversation selection then fails with the no-chat-found error. -/
theorem wrapped_no_messages_empty (raw : List Char) (i : Nat)
    (h1 : find_chats_list_start raw = some i)
    (h2 : listChatsLoopF (raw.length + 1) raw i 0 10000 [] = []) :
    list_all_chats raw 10000 = []
    ∧ ∀ (q : Option (List Char)) (cid : Option Int),
        pick_chat_container raw q cid = Except.error PickError.noChats := by
  have hl : list_all_chats raw 10000 = [] := by
    simp only [list_all_chats, h1, h2]
  refine ⟨hl, fun q cid => ?_⟩
  unfold pick_chat_container
  rw [hl]

/-- Witness for C10: a wrapped input whose only fragment lacks a message
collection discovers nothing and selection reports the no-chat error. -/
theorem wrapped_no_messages_empty_witness :
    list_all_chats raw10 10000 = []
    ∧ pick_chat_container raw10 none none = Except.error PickError.noChats := by
  have h := wrapped_no_messages_empty raw10 17 rfl rfl
  exact ⟨h.1, h.2 none none⟩
